import Mathlib

/- Shallow embedding of `openhands/resolver/resolve_all_issues.py`: the
   bounded-concurrency resumable batch runner (completion ledger, scheduling
   pipeline, cancellation handler), together with theorems about its
   behaviour.  Python machine integers are modelled as `Nat`, fallible code
   as `Except`/`Option`, and the asynchronous scheduler as an explicit step
   relation on a scheduler state. -/

/-- Modelled from the spec: WorkUnit (the `Issue` class of
`openhands/resolver/interfaces/issue.py` is not among the embedded source
files): a record carrying a stable numeric identifier plus the
`head_branch` payload field that the runner reads for pr-type units. -/
structure Issue where
  number : Nat
  head_branch : String
deriving DecidableEq

/-- Modelled from the spec: UnitResult (the `ResolverOutput` pydantic class of
`openhands/resolver/resolver_output.py` is not among the embedded source
files): the originating unit's identifier together with a metrics payload,
serializable to a single line of text. -/
structure ResolverOutput where
  issue : Issue
  test_result : Nat
deriving DecidableEq

/-- Decimal digit to character. -/
def digitChar : Nat → Char
  | 0 => '0'
  | 1 => '1'
  | 2 => '2'
  | 3 => '3'
  | 4 => '4'
  | 5 => '5'
  | 6 => '6'
  | 7 => '7'
  | 8 => '8'
  | _ => '9'

/-- Character back to decimal digit (`none` on a non-digit). -/
def digitVal? (c : Char) : Option Nat :=
  if '0' ≤ c ∧ c ≤ '9' then some (c.toNat - '0'.toNat) else none

/-- Most-significant-first decimal digits of `n`, with explicit fuel so that
the definition is structural (and hence evaluates inside the kernel). -/
def digitsRev (fuel n : Nat) : List Nat :=
  match fuel with
  | 0 => []
  | f + 1 => if n < 10 then [n] else digitsRev f (n / 10) ++ [n % 10]

/-- Most-significant-first decimal digits of `n`. -/
def natToDigitList (n : Nat) : List Nat :=
  digitsRev (n + 1) n

/-- Decimal rendering of `n` as characters. -/
def natToChars (n : Nat) : List Char :=
  (natToDigitList n).map digitChar

/-- Value of a most-significant-first digit list. -/
def digitsVal (ds : List Nat) : Nat :=
  ds.foldl (fun a d => a * 10 + d) 0

/-- Consume the maximal run of leading digits. -/
def takeDigits : List Char → List Nat × List Char
  | [] => ([], [])
  | c :: cs =>
    match digitVal? c with
    | some d =>
      match takeDigits cs with
      | (ds, rest) => (d :: ds, rest)
    | none => ([], c :: cs)

/-- Parse a nonempty run of digits as a natural number. -/
def parseNat? (s : List Char) : Option (Nat × List Char) :=
  match takeDigits s with
  | ([], _) => none
  | (ds, rest) => some (digitsVal ds, rest)

/-- Consume an expected literal chunk. -/
def expectChars : List Char → List Char → Option (List Char)
  | [], s => some s
  | _ :: _, [] => none
  | p :: ps, c :: cs => if c = p then expectChars ps cs else none

def litNum : List Char := ['i', 's', 's', 'u', 'e', '=']

def litTr : List Char := [' ', 't', 'e', 's', 't', '=']

def litEnd : List Char := [' ', 'e', 'n', 'd']

def emptyBranch : String := ""

/-- Modelled from the spec: the single-line serialization of a UnitResult
(`ResolverOutput.model_dump_json`, pydantic, is not among the embedded source
files).  A self-delimiting newline-free record carrying the unit identifier
and the metric payload. -/
def serializeResolverOutput (r : ResolverOutput) : List Char :=
  litNum ++ natToChars r.issue.number ++ litTr ++ natToChars r.test_result ++ litEnd

/-- Modelled from the spec: the line deserializer
(`ResolverOutput.model_validate_json`, pydantic, is not among the embedded
source files).  Returns `none` exactly when the line is not a well-formed
record; a well-formed record must run to its closing delimiter with nothing
after it, so any truncation of a valid line is rejected. -/
def parseResolverOutput (s : List Char) : Option ResolverOutput :=
  (expectChars litNum s).bind fun s1 =>
    (parseNat? s1).bind fun p1 =>
      (expectChars litTr p1.2).bind fun s3 =>
        (parseNat? s3).bind fun p2 =>
          (expectChars litEnd p2.2).bind fun s5 =>
            match s5 with
            | [] => some { issue := { number := p1.1, head_branch := emptyBranch }, test_result := p2.1 }
            | _ :: _ => none

/-- `finished_numbers.add(...)` on the Python `set`, realised on an ordered
duplicate-free list. -/
def addFinished (acc : List Nat) (n : Nat) : List Nat :=
  if n ∈ acc then acc else acc ++ [n]

/-- Lines 143-146 of `resolve_all_issues.py`: read the existing output file
line by line, deserializing each line and collecting the identifiers seen;
the first line that fails to deserialize raises (`Except.error`) without
reading further. -/
def loadFinishedNumbers (acc : List Nat) : List (List Char) → Except (List Char) (List Nat)
  | [] => Except.ok acc
  | line :: rest =>
    match parseResolverOutput line with
    | none => Except.error line
    | some r => loadFinishedNumbers (addFinished acc r.issue.number) rest

/-- Lines 141-149: `finished_numbers` starts empty; the file is read only if
it exists (`none` models a missing ledger file). -/
def loadLedgerFile : Option (List (List Char)) → Except (List Char) (List Nat)
  | none => Except.ok []
  | some lines => loadFinishedNumbers [] lines

/-- Python list slicing `xs[:n]` for an `int` bound. -/
def pySlice (n : Int) (xs : List Issue) : List Issue :=
  if 0 ≤ n then xs.take n.toNat else xs.take (xs.length - (-n).toNat)

/-- Lines 96-98: `if limit_issues is not None: issues = issues[:limit_issues]`. -/
def applyLimit : Option Int → List Issue → List Issue
  | none, xs => xs
  | some n, xs => pySlice n xs

/-- Lines 158-163: the loop building `new_issues`, skipping every issue whose
number is in `finished_numbers`. -/
def filterFinishedIssues (finished : List Nat) (issues : List Issue) : List Issue :=
  issues.filter fun i => decide (¬ i.number ∈ finished)

/-- The `new_issues` value as computed by the source: the finished-filter is
applied to the already-truncated issue list. -/
def newIssuesOf (finished : List Nat) (limit : Option Int) (issues : List Issue) : List Issue :=
  filterFinishedIssues finished (applyLimit limit issues)

def prType : String := "pr"

def itIssue : String := "issue"

/-- Lines 175-211: the task-building loop.  It iterates over `issues` (the
truncated list, not `new_issues`).  For a pr-type run each iteration first
performs the side-channel `git checkout` (modelled as `checkout`, failing
with a process return code); the loop body is inside a `try` that only
catches `KeyboardInterrupt`, so a checkout failure propagates and ends the
whole loop. -/
def buildTasks (issue_type : String) (checkout : String → Except Nat Unit) : List Issue → Except Nat (List Issue)
  | [] => Except.ok []
  | i :: rest =>
    if issue_type = prType then
      match checkout i.head_branch with
      | Except.error c => Except.error c
      | Except.ok _ =>
        match buildTasks issue_type checkout rest with
        | Except.error c => Except.error c
        | Except.ok ts => Except.ok (i :: ts)
    else
      match buildTasks issue_type checkout rest with
      | Except.error c => Except.error c
      | Except.ok ts => Except.ok (i :: ts)

inductive RunError where
  | corruptLedger (line : List Char)
  | repoState (code : Nat)
deriving DecidableEq

/-- The start-up pipeline of `resolve_issues` (lines 92-220), in source
order: truncate the issue list, load the ledger (a deserialization failure
propagates before any scheduling), compute `new_issues` (which the source
then never uses), and build the task list from the truncated — unfiltered —
issue list.  The returned list is exactly the list of issues handed to the
executor via `asyncio.gather`. -/
def scheduledIssues (ledgerFile : Option (List (List Char))) (limit : Option Int)
    (issue_type : String) (checkout : String → Except Nat Unit) (issues : List Issue) :
    Except RunError (List Issue) :=
  let issuesL := applyLimit limit issues
  match loadLedgerFile ledgerFile with
  | Except.error l => Except.error (RunError.corruptLedger l)
  | Except.ok finished =>
    let _newIssues := filterFinishedIssues finished issuesL
    match buildTasks issue_type checkout issuesL with
    | Except.error c => Except.error (RunError.repoState c)
    | Except.ok tasks => Except.ok tasks

/-- Observable effects of the runner, at the granularity of the individual
statements of `update_progress` and `cleanup`. -/
inductive Event where
  | launchEv (n : Nat)
  | progressEv (n : Nat)
  | appendEv (n : Nat) (line : List Char)
  | flushEv
  | interruptEv
  | terminateEv (n : Nat)
  | joinEv (n : Nat)
  | closeEv
deriving DecidableEq

/-- Lines 35-48, `update_progress`, after `await output` has produced the
result: first the progress report (`pbar.update`, `pbar.set_description`,
`pbar.set_postfix_str`, `logger.info`, lines 39-46), then the ledger append
(`output_fp.write(... + newline)`, line 47), then the flush (line 48).  No
`await` occurs between these statements. -/
def updateProgressEvents (r : ResolverOutput) : List Event :=
  [Event.progressEv r.issue.number,
   Event.appendEv r.issue.number (serializeResolverOutput r),
   Event.flushEv]

def isLaunchEv : Event → Bool
  | Event.launchEv _ => true
  | _ => false

def isProgressFor (n : Nat) : Event → Bool
  | Event.progressEv m => m == n
  | _ => false

def isAppendFor (n : Nat) : Event → Bool
  | Event.appendEv m _ => m == n
  | _ => false

def countLaunch (es : List Event) : Nat :=
  es.countP isLaunchEv

def countProgress (n : Nat) (es : List Event) : Nat :=
  es.countP (isProgressFor n)

def countAppend (n : Nat) (es : List Event) : Nat :=
  es.countP (isAppendFor n)

/-- The ledger lines written by the append events of a trace, in order. -/
def appendLinesOf (es : List Event) : List (List Char) :=
  es.filterMap fun e =>
    match e with
    | Event.appendEv _ line => some line
    | _ => none

/-- State of the bounded scheduler (lines 213-226) together with the
cancellation handler (lines 26-31 and 222-226): the issues not yet handed to
`run_with_semaphore`, the executions currently in flight, the remaining
semaphore permits, the ledger file contents, the first executor failure
(`asyncio.gather` re-raises the first exception), the interrupt flag, the
ledger-file-closed flag, the children that were in flight when the interrupt
arrived, and the emitted event trace. -/
structure SchedState where
  pending : List Issue
  launched : List Issue
  sem : Nat
  ledger : List (List Char)
  failure : Option Nat
  interrupted : Bool
  closed : Bool
  atInterrupt : List Issue
  events : List Event
deriving DecidableEq

/-- Initial scheduler state: nothing launched, `asyncio.Semaphore(num_workers)`
full, the ledger file holding whatever was on disk at start-up. -/
def initState (units : List Issue) (numWorkers : Nat) (ledger0 : List (List Char)) : SchedState :=
  { pending := units, launched := [], sem := numWorkers, ledger := ledger0,
    failure := none, interrupted := false, closed := false, atInterrupt := [],
    events := [] }

/-- Small-step semantics of `asyncio.gather` over the `run_with_semaphore`
wrappers (lines 213-220) plus the `KeyboardInterrupt` handler (222-226):

* `launch` — a wrapper acquires a semaphore permit and starts awaiting its
  task (only possible before an interrupt and while a permit is free);
* `completeOk` — an in-flight task finishes; `update_progress` runs its
  synchronous block, emitting the progress report and appending the
  serialized result to the ledger in one step (no `await` separates them);
* `completeErr` — an in-flight task raises; `gather` keeps the first
  exception to re-raise, and no ledger line is written;
* `interrupt` — `KeyboardInterrupt` arrives; the in-flight children are
  recorded for `cleanup`;
* `drain` — `cleanup` terminates and then joins one child process;
* `close` — after `cleanup` has drained every child, `output_fp.close()`. -/
inductive SchedStep (exec : Issue → Except Nat ResolverOutput) : SchedState → SchedState → Prop where
  | launch (s : SchedState) (i : Issue) (rest : List Issue) (k : Nat) :
      s.interrupted = false → s.closed = false →
      s.pending = i :: rest → s.sem = k + 1 →
      SchedStep exec s { s with pending := rest, launched := s.launched ++ [i], sem := k,
                                events := s.events ++ [Event.launchEv i.number] }
  | completeOk (s : SchedState) (i : Issue) (r : ResolverOutput) :
      s.interrupted = false → i ∈ s.launched → exec i = Except.ok r →
      SchedStep exec s { s with launched := s.launched.erase i, sem := s.sem + 1,
                                ledger := s.ledger ++ [serializeResolverOutput r],
                                events := s.events ++ updateProgressEvents r }
  | completeErr (s : SchedState) (i : Issue) (e : Nat) :
      s.interrupted = false → i ∈ s.launched → exec i = Except.error e →
      SchedStep exec s { s with launched := s.launched.erase i, sem := s.sem + 1,
                                failure := some (s.failure.getD e) }
  | interrupt (s : SchedState) :
      s.interrupted = false → s.closed = false →
      SchedStep exec s { s with interrupted := true, atInterrupt := s.launched,
                                events := s.events ++ [Event.interruptEv] }
  | drain (s : SchedState) (i : Issue) (rest : List Issue) :
      s.interrupted = true → s.launched = i :: rest →
      SchedStep exec s { s with launched := rest,
                                events := s.events ++ [Event.terminateEv i.number, Event.joinEv i.number] }
  | close (s : SchedState) :
      s.interrupted = true → s.launched = [] → s.closed = false →
      SchedStep exec s { s with closed := true, events := s.events ++ [Event.closeEv] }

/-- The value `await asyncio.gather(...)` produces for the caller: the first
executor exception if any task raised, success otherwise. -/
def gatherOutcome (s : SchedState) : Except Nat Unit :=
  match s.failure with
  | some e => Except.error e
  | none => Except.ok ()

/-- Head-of-input is not a decimal digit (or the input is empty). -/
def headNotDigit : List Char → Prop
  | [] => True
  | c :: _ => digitVal? c = none

/- Concrete inputs used to evaluate the embedded code. -/

def issue1 : Issue := { number := 1, head_branch := emptyBranch }

def issue2 : Issue := { number := 2, head_branch := emptyBranch }

def issue3 : Issue := { number := 3, head_branch := emptyBranch }

def issue4 : Issue := { number := 4, head_branch := emptyBranch }

def result1 : ResolverOutput := { issue := issue1, test_result := 0 }

def result3 : ResolverOutput := { issue := issue3, test_result := 0 }

/-- A ledger already containing results for identifiers 1 and 3. -/
def ledger13 : List (List Char) :=
  [serializeResolverOutput result1, serializeResolverOutput result3]

def issues1234 : List Issue := [issue1, issue2, issue3, issue4]

/-- A checkout pre-step that always succeeds. -/
def chkOk : String → Except Nat Unit := fun _ => Except.ok ()

def result7 : ResolverOutput := { issue := { number := 7, head_branch := emptyBranch }, test_result := 1 }

/-- A well-formed ledger line. -/
def goodLine : List Char := serializeResolverOutput result7

/-- The same line with its final character cut off: an abrupt truncation. -/
def truncLine : List Char := goodLine.dropLast

def branchB1 : String := "b1"

def branchB2 : String := "b2"

def issueP1 : Issue := { number := 1, head_branch := branchB1 }

def issueP2 : Issue := { number := 2, head_branch := branchB2 }

/-- A checkout pre-step that fails (return code 128) exactly on `b1`. -/
def chkFailB1 : String → Except Nat Unit :=
  fun b => if b = branchB1 then Except.error 128 else Except.ok ()

def resultC2 : ResolverOutput := { issue := { number := 5, head_branch := emptyBranch }, test_result := 0 }

def issueW : Issue := { number := 1, head_branch := emptyBranch }

def resultW : ResolverOutput := { issue := issueW, test_result := 0 }

/-- An executor whose only unit fails with code 9. -/
def execErrW : Issue → Except Nat ResolverOutput := fun _ => Except.error 9

/-- An executor that succeeds with a zero metric. -/
def execOkW : Issue → Except Nat ResolverOutput :=
  fun i => Except.ok { issue := i, test_result := 0 }

def stInitW : SchedState := initState [issueW] 1 []

/-- `stInitW` after launching `issueW`. -/
def stLaunchW : SchedState :=
  { pending := [], launched := [issueW], sem := 0, ledger := [], failure := none,
    interrupted := false, closed := false, atInterrupt := [],
    events := [Event.launchEv 1] }

def issueW2 : Issue := { number := 2, head_branch := emptyBranch }

/-- An executor that succeeds with a zero metric on every unit except
unit 2, where it fails with code 9. -/
def execMixedW : Issue → Except Nat ResolverOutput :=
  fun i => if i.number = 2 then Except.error 9
           else Except.ok { issue := i, test_result := 0 }

def stC7Init : SchedState := initState [issueW, issueW2] 1 []

/-- `stC7Init` after launching unit 1. -/
def stC7Launch1 : SchedState :=
  { pending := [issueW2], launched := [issueW], sem := 0, ledger := [], failure := none,
    interrupted := false, closed := false, atInterrupt := [],
    events := [Event.launchEv 1] }

/-- `stC7Launch1` after unit 1 completed: its serialized result has been
appended to the ledger. -/
def stC7Done1 : SchedState :=
  { stC7Launch1 with launched := [], sem := 1,
                     ledger := [serializeResolverOutput resultW],
                     events := [Event.launchEv 1] ++ updateProgressEvents resultW }

/-- `stC7Done1` after launching unit 2. -/
def stC7Launch2 : SchedState :=
  { stC7Done1 with pending := [], launched := [issueW2], sem := 0,
                   events := stC7Done1.events ++ [Event.launchEv 2] }

/-- `stC7Launch2` after unit 2's executor raised (code 9): the sibling's
ledger line from `stC7Done1` is still in place. -/
def stC7Fail : SchedState :=
  { stC7Launch2 with launched := [], sem := 1, failure := some 9 }

/-- `stLaunchW` after `issueW` completed successfully. -/
def stDoneW : SchedState :=
  { stLaunchW with launched := [], sem := 1,
                   ledger := [serializeResolverOutput resultW],
                   events := [Event.launchEv 1] ++ updateProgressEvents resultW }

/-- `stLaunchW` after a `KeyboardInterrupt`. -/
def stIntW : SchedState :=
  { stLaunchW with interrupted := true, atInterrupt := [issueW],
                   events := [Event.launchEv 1, Event.interruptEv] }

/-- `stIntW` after `cleanup` terminated and joined the child. -/
def stDrainW : SchedState :=
  { stIntW with launched := [],
                events := [Event.launchEv 1, Event.interruptEv, Event.terminateEv 1,
                           Event.joinEv 1] }

/-- `stDrainW` after `output_fp.close()`. -/
def stClosedW : SchedState :=
  { stDrainW with closed := true,
                  events := [Event.launchEv 1, Event.interruptEv, Event.terminateEv 1,
                             Event.joinEv 1, Event.closeEv] }

def issuesC9 : List Issue := [issue1, issue2, issue3, issue4]

def finishedC9 : List Nat := [1]

/-- A line that is not a well-formed record at all. -/
def badLineC3 : List Char := ['x']

/- Scheduler invariants. -/

/-- Invariant of the scheduler step relation, from the initial state
`initState units W L0`: the semaphore bounds the in-flight count, the ledger
is the initial file extended by exactly the append events, no unit occurs
more often in pending-plus-in-flight than it did initially (no retries),
progress and append counts agree at every scheduler-observable point, a
closed ledger implies an interrupt happened and everything was drained, and
every child recorded at the interrupt is either still in flight or has been
terminated and joined. -/
structure SchedInv (units : List Issue) (W : Nat) (L0 : List (List Char)) (s : SchedState) : Prop where
  hsem : s.launched.length + s.sem ≤ W
  hledger : s.ledger = L0 ++ appendLinesOf s.events
  hcount : ∀ i : Issue, (s.pending ++ s.launched).count i ≤ units.count i
  hprog : ∀ n, countProgress n s.events = countAppend n s.events
  hclosedInt : s.closed = true → s.interrupted = true
  hclosedLaunched : s.closed = true → s.launched = []
  hatInt : s.interrupted = false → s.atInterrupt = []
  hdrain : ∀ i ∈ s.atInterrupt, i ∈ s.launched ∨
    (Event.terminateEv i.number ∈ s.events ∧ Event.joinEv i.number ∈ s.events)

/- Helper lemmas about the decimal digit codec. -/

theorem digitVal?_digitChar : ∀ d, d < 10 → digitVal? (digitChar d) = some d := by
  decide

theorem digitsRev_all_lt (f : Nat) : ∀ n, n < f → ∀ d ∈ digitsRev f n, d < 10 := by
  induction f with
  | zero => intro n hn; omega
  | succ f ih =>
    intro n hn d hd
    rw [digitsRev] at hd
    split at hd
    · simp only [List.mem_singleton] at hd
      omega
    · rcases List.mem_append.mp hd with h | h
      · have hdiv : n / 10 < n := Nat.div_lt_self (by omega) (by omega)
        exact ih (n / 10) (by omega) d h
      · simp only [List.mem_singleton] at h
        subst h
        exact Nat.mod_lt _ (by omega)

theorem digitsRev_ne_nil (f n : Nat) (h : n < f) : digitsRev f n ≠ [] := by
  cases f with
  | zero => omega
  | succ f =>
    rw [digitsRev]
    split
    · simp
    · simp

theorem digitsVal_append_single (ds : List Nat) (d : Nat) :
    digitsVal (ds ++ [d]) = digitsVal ds * 10 + d := by
  simp [digitsVal, List.foldl_append]

theorem digitsVal_digitsRev (f : Nat) : ∀ n, n < f → digitsVal (digitsRev f n) = n := by
  induction f with
  | zero => intro n hn; omega
  | succ f ih =>
    intro n hn
    rw [digitsRev]
    split
    · simp [digitsVal]
    · have hdiv : n / 10 < n := Nat.div_lt_self (by omega) (by omega)
      rw [digitsVal_append_single, ih (n / 10) (by omega)]
      omega

theorem takeDigits_digits (ds : List Nat) (rest : List Char)
    (hds : ∀ d ∈ ds, d < 10) (hrest : headNotDigit rest) :
    takeDigits (ds.map digitChar ++ rest) = (ds, rest) := by
  induction ds with
  | nil =>
    simp only [List.map_nil, List.nil_append]
    cases rest with
    | nil => rfl
    | cons c cs =>
      have h : digitVal? c = none := hrest
      simp [takeDigits, h]
  | cons d ds ih =>
    have h1 : digitVal? (digitChar d) = some d :=
      digitVal?_digitChar d (hds d (List.mem_cons_self d ds))
    have h2 := ih fun x hx => hds x (List.mem_cons_of_mem d hx)
    simp [takeDigits, h1, h2]

theorem parseNat?_natToChars (n : Nat) (rest : List Char) (hrest : headNotDigit rest) :
    parseNat? (natToChars n ++ rest) = some (n, rest) := by
  have hlt : n < n + 1 := Nat.lt_succ_self n
  have htake : takeDigits (natToChars n ++ rest) = (digitsRev (n + 1) n, rest) := by
    unfold natToChars natToDigitList
    exact takeDigits_digits _ _ (digitsRev_all_lt (n + 1) n hlt) hrest
  unfold parseNat?
  rw [htake]
  rcases h : digitsRev (n + 1) n with _ | ⟨d, ds⟩
  · exact absurd h (digitsRev_ne_nil (n + 1) n hlt)
  · have hv := digitsVal_digitsRev (n + 1) n hlt
    rw [h] at hv
    simp [hv]

theorem expectChars_append (pat rest : List Char) :
    expectChars pat (pat ++ rest) = some rest := by
  induction pat with
  | nil => rfl
  | cons p ps ih => simp [expectChars, ih]

/-- Round trip of the modelled line codec: deserializing a serialized result
recovers the identifier and the metric. -/
theorem parse_serialize (r : ResolverOutput) :
    parseResolverOutput (serializeResolverOutput r) =
      some { issue := { number := r.issue.number, head_branch := emptyBranch },
             test_result := r.test_result } := by
  have h1 : parseNat? (natToChars r.issue.number ++
      (litTr ++ (natToChars r.test_result ++ litEnd))) =
      some (r.issue.number, litTr ++ (natToChars r.test_result ++ litEnd)) :=
    parseNat?_natToChars _ _ rfl
  have h2 : parseNat? (natToChars r.test_result ++ litEnd) =
      some (r.test_result, litEnd) :=
    parseNat?_natToChars _ _ rfl
  have h3 : expectChars litEnd litEnd = some [] := by
    have h := expectChars_append litEnd []
    simpa using h
  simp [serializeResolverOutput, parseResolverOutput, List.append_assoc,
    expectChars_append, h1, h2, h3]

/- Ledger-loading and pipeline lemmas. -/

theorem loadFinishedNumbers_error_of_bad (lines : List (List Char)) :
    ∀ acc, (∃ l ∈ lines, parseResolverOutput l = none) →
      ∃ bad, parseResolverOutput bad = none ∧
        loadFinishedNumbers acc lines = Except.error bad := by
  induction lines with
  | nil =>
    intro acc h
    rcases h with ⟨l, hl, _⟩
    cases hl
  | cons line rest ih =>
    intro acc h
    cases hp : parseResolverOutput line with
    | none => exact ⟨line, hp, by simp [loadFinishedNumbers, hp]⟩
    | some r =>
      rcases h with ⟨l, hl, hbad⟩
      rcases List.mem_cons.mp hl with rfl | hmem
      · exact absurd hbad (by simp [hp])
      · rcases ih (addFinished acc r.issue.number) ⟨l, hmem, hbad⟩ with ⟨bad, h1, h2⟩
        exact ⟨bad, h1, by simp [loadFinishedNumbers, hp, h2]⟩

theorem addFinished_mem (acc : List Nat) (m n : Nat) :
    n ∈ addFinished acc m ↔ n ∈ acc ∨ n = m := by
  unfold addFinished
  by_cases h : m ∈ acc
  · simp only [if_pos h]
    constructor
    · exact Or.inl
    · rintro (hx | rfl)
      · exact hx
      · exact h
  · simp [if_neg h, List.mem_append]

theorem loadFinishedNumbers_serialized (rs : List ResolverOutput) :
    ∀ acc, ∃ fin, loadFinishedNumbers acc (rs.map serializeResolverOutput) = Except.ok fin ∧
      ∀ n, n ∈ fin ↔ n ∈ acc ∨ n ∈ rs.map fun x => x.issue.number := by
  induction rs with
  | nil =>
    intro acc
    exact ⟨acc, rfl, by simp⟩
  | cons r rs ih =>
    intro acc
    rcases ih (addFinished acc r.issue.number) with ⟨fin, h1, h2⟩
    refine ⟨fin, ?_, ?_⟩
    · simp only [List.map_cons, loadFinishedNumbers, parse_serialize]
      exact h1
    · intro n
      rw [h2 n, addFinished_mem]
      simp only [List.map_cons, List.mem_cons]
      tauto

theorem length_filter_plus_not (p : Issue → Bool) (l : List Issue) :
    (l.filter p).length + (l.filter fun a => ! p a).length = l.length := by
  induction l with
  | nil => rfl
  | cons a l ih =>
    cases h : p a <;> simp [List.filter_cons, h] <;> omega

/-- Claim C1: the source computes `new_issues` (the finished-filtered list,
here `[issue2, issue4]`) and even logs that issues 1 and 3 are skipped, but
the task-building loop at line 176 iterates over `issues`, so with a ledger
already containing results for identifiers 1 and 3 all four units — 1 and 3
included — are handed to the executor, contradicting the claim that only 2
and 4 execute. -/
theorem c1_completed_units_rescheduled :
    loadLedgerFile (some ledger13) = Except.ok [1, 3] ∧
    newIssuesOf [1, 3] none issues1234 = [issue2, issue4] ∧
    scheduledIssues (some ledger13) none itIssue chkOk issues1234 = Except.ok issues1234 :=
  ⟨rfl, rfl, rfl⟩

/-- Claim C3: a missing ledger file loads as the empty set without error, and
if any line of an existing ledger fails to deserialize, loading propagates a
`CorruptLedgerEntry`-style failure (the offending line) and the start-up
pipeline ends in that error before any task is built. -/
theorem c3_ledger_load_contract (limit : Option Int) (it : String)
    (chk : String → Except Nat Unit) (issues : List Issue)
    (lines : List (List Char)) (l : List Char)
    (hl : l ∈ lines) (hbad : parseResolverOutput l = none) :
    loadLedgerFile none = Except.ok [] ∧
    ∃ bad, parseResolverOutput bad = none ∧
      loadLedgerFile (some lines) = Except.error bad ∧
      scheduledIssues (some lines) limit it chk issues =
        Except.error (RunError.corruptLedger bad) := by
  refine ⟨rfl, ?_⟩
  rcases loadFinishedNumbers_error_of_bad lines [] ⟨l, hl, hbad⟩ with ⟨bad, h1, h2⟩
  refine ⟨bad, h1, ?_, ?_⟩
  · simpa [loadLedgerFile] using h2
  · unfold scheduledIssues
    simp [loadLedgerFile, h2]

theorem c3_witness :
    badLineC3 ∈ [badLineC3] ∧ parseResolverOutput badLineC3 = none ∧
    (loadLedgerFile none = Except.ok [] ∧
      ∃ bad, parseResolverOutput bad = none ∧
        loadLedgerFile (some [badLineC3]) = Except.error bad ∧
        scheduledIssues (some [badLineC3]) none itIssue chkOk [issue1] =
          Except.error (RunError.corruptLedger bad)) :=
  ⟨List.mem_singleton.mpr rfl, rfl,
    c3_ledger_load_contract none itIssue chkOk [issue1] [badLineC3] badLineC3
      (List.mem_singleton.mpr rfl) rfl⟩

/-- Claim C4: contrary to the claim, a ledger holding one well-formed line
followed by a truncated trailing line does crash start-up: the truncated line
fails to deserialize and the error propagates out of the loading loop, so the
well-formed entry is not recovered and no scheduling happens.  (Alone, the
well-formed line loads fine.) -/
theorem c4_truncated_ledger_crashes :
    loadFinishedNumbers [] [goodLine] = Except.ok [7] ∧
    parseResolverOutput truncLine = none ∧
    scheduledIssues (some [goodLine, truncLine]) none itIssue chkOk [issue1] =
      Except.error (RunError.corruptLedger truncLine) :=
  ⟨rfl, rfl, rfl⟩

/-- Claim C6 counterexample: with a pr-type run over two units where the
checkout pre-step fails for the first unit's branch, the whole run fails with
that error; in particular the second unit is not scheduled, refuting the
claim that such a failure aborts only the failing unit's launch. -/
theorem c6_checkout_failure_cex :
    scheduledIssues none none prType chkFailB1 [issueP1, issueP2] =
      Except.error (RunError.repoState 128) ∧
    ¬ ∃ ts, scheduledIssues none none prType chkFailB1 [issueP1, issueP2] = Except.ok ts ∧
        issueP2 ∈ ts := by
  refine ⟨rfl, ?_⟩
  rintro ⟨ts, hts, -⟩
  rw [show scheduledIssues none none prType chkFailB1 [issueP1, issueP2] =
      Except.error (RunError.repoState 128) from rfl] at hts
  simp at hts

/-- Claim C6, amended: if the checkout pre-step fails for any unit of a
pr-type run, the exception propagates out of the task-building loop, so the
run as a whole fails (and no task batch is ever produced, hence no unit of
the batch executes). -/
theorem c6_checkout_failure_aborts_whole_run (checkout : String → Except Nat Unit)
    (xs : List Issue) (h : ∃ i ∈ xs, ∃ c, checkout i.head_branch = Except.error c) :
    ∃ c, buildTasks prType checkout xs = Except.error c := by
  induction xs with
  | nil =>
    rcases h with ⟨i, hi, _⟩
    cases hi
  | cons i rest ih =>
    rcases h with ⟨j, hj, c, hc⟩
    cases hchk : checkout i.head_branch with
    | error c2 => exact ⟨c2, by simp [buildTasks, hchk]⟩
    | ok u =>
      rcases List.mem_cons.mp hj with rfl | hmem
      · exact absurd hc (by simp [hchk])
      · rcases ih ⟨j, hmem, c, hc⟩ with ⟨c3, h3⟩
        exact ⟨c3, by simp [buildTasks, hchk, h3]⟩

theorem c6_witness :
    (∃ i ∈ [issueP1, issueP2], ∃ c, chkFailB1 i.head_branch = Except.error c) ∧
    ∃ c, buildTasks prType chkFailB1 [issueP1, issueP2] = Except.error c :=
  ⟨⟨issueP1, by simp, 128, rfl⟩,
    c6_checkout_failure_aborts_whole_run chkFailB1 [issueP1, issueP2]
      ⟨issueP1, by simp, 128, rfl⟩⟩

/-- Claim C9: a supplied non-negative limit keeps exactly the first
`limit_issues` units of the source-ordered list, the finished-filter is
applied to the already-truncated list (truncation happens first), and units
of the first-N window that are already completed still occupy window slots:
the kept-plus-filtered-out lengths partition the window. -/
theorem c9_limit_before_filter (issues : List Issue) (finished : List Nat)
    (n : Int) (hn : 0 ≤ n) :
    applyLimit (some n) issues = issues.take n.toNat ∧
    newIssuesOf finished (some n) issues =
      (issues.take n.toNat).filter (fun i => decide (¬ i.number ∈ finished)) ∧
    ((issues.take n.toNat).filter fun i => decide (i.number ∈ finished)).length +
        (newIssuesOf finished (some n) issues).length =
      (issues.take n.toNat).length := by
  have h1 : applyLimit (some n) issues = issues.take n.toNat := by
    simp [applyLimit, pySlice, hn]
  refine ⟨h1, ?_, ?_⟩
  · rw [newIssuesOf, h1]
    rfl
  · rw [newIssuesOf, h1]
    unfold filterFinishedIssues
    have hp := length_filter_plus_not (fun i => decide (i.number ∈ finished))
      (issues.take n.toNat)
    simpa [decide_not] using hp

theorem c9_witness :
    (0 : Int) ≤ 2 ∧
    (applyLimit (some 2) issuesC9 = issuesC9.take (2 : Int).toNat ∧
      newIssuesOf finishedC9 (some 2) issuesC9 =
        (issuesC9.take (2 : Int).toNat).filter
          (fun i => decide (¬ i.number ∈ finishedC9)) ∧
      ((issuesC9.take (2 : Int).toNat).filter
            fun i => decide (i.number ∈ finishedC9)).length +
          (newIssuesOf finishedC9 (some 2) issuesC9).length =
        (issuesC9.take (2 : Int).toNat).length) :=
  ⟨by decide, c9_limit_before_filter issuesC9 finishedC9 2 (by decide)⟩

/-- Claim C10: deserializing the line produced by the append serialization
yields a result with the same issue identifier, and loading a ledger that
consists exactly of the lines appended for `rs` recovers exactly the set of
appended identifiers. -/
theorem c10_roundtrip (r : ResolverOutput) (rs : List ResolverOutput) :
    (∃ r', parseResolverOutput (serializeResolverOutput r) = some r' ∧
      r'.issue.number = r.issue.number) ∧
    ∃ fin, loadFinishedNumbers [] (rs.map serializeResolverOutput) = Except.ok fin ∧
      ∀ n, n ∈ fin ↔ n ∈ rs.map fun x => x.issue.number := by
  constructor
  · exact ⟨_, parse_serialize r, rfl⟩
  · rcases loadFinishedNumbers_serialized rs [] with ⟨fin, h1, h2⟩
    refine ⟨fin, h1, fun n => ?_⟩
    rw [h2 n]
    simp

theorem schedInv_init (units : List Issue) (W : Nat) (L0 : List (List Char)) :
    SchedInv units W L0 (initState units W L0) := by
  refine ⟨?_, ?_, ?_, ?_, ?_, ?_, ?_, ?_⟩
  · simp [initState]
  · simp [initState, appendLinesOf]
  · intro i
    simp [initState]
  · intro n
    simp [initState, countProgress, countAppend]
  · simp [initState]
  · simp [initState]
  · intro _
    rfl
  · simp [initState]

theorem schedInv_step (units : List Issue) (W : Nat) (L0 : List (List Char))
    (exec : Issue → Except Nat ResolverOutput) (s t : SchedState)
    (hinv : SchedInv units W L0 s) (hstep : SchedStep exec s t) :
    SchedInv units W L0 t := by
  cases hstep with
  | launch i rest k hI hC hP hS =>
    refine ⟨?_, ?_, ?_, ?_, ?_, ?_, ?_, ?_⟩
    · dsimp only
      have h := hinv.hsem
      rw [hS] at h
      simp only [List.length_append, List.length_singleton]
      omega
    · dsimp only
      rw [hinv.hledger]
      simp [appendLinesOf, List.filterMap_append]
    · intro j
      dsimp only
      have h := hinv.hcount j
      rw [hP] at h
      have hp2 : List.Perm (rest ++ (s.launched ++ [i])) (rest ++ (i :: s.launched)) :=
        List.Perm.append_left rest (List.perm_append_singleton i s.launched)
      have hperm : List.Perm (rest ++ (s.launched ++ [i])) (i :: (rest ++ s.launched)) :=
        hp2.trans List.perm_middle
      rw [hperm.count_eq]
      exact h
    · intro n
      dsimp only
      have h := hinv.hprog n
      unfold countProgress countAppend at h ⊢
      rw [List.countP_append, List.countP_append, h]
      simp [List.countP_cons, isProgressFor, isAppendFor]
    · dsimp only
      exact hinv.hclosedInt
    · intro hc
      exact absurd (hC.symm.trans hc) (by simp)
    · dsimp only
      exact hinv.hatInt
    · intro j hj
      dsimp only at hj
      rw [hinv.hatInt hI] at hj
      cases hj
  | completeOk i r hI hM hE =>
    refine ⟨?_, ?_, ?_, ?_, ?_, ?_, ?_, ?_⟩
    · dsimp only
      have h := hinv.hsem
      have hlen : (s.launched.erase i).length = s.launched.length - 1 :=
        List.length_erase_of_mem hM
      have hpos : 0 < s.launched.length := List.length_pos.mpr (List.ne_nil_of_mem hM)
      omega
    · dsimp only
      rw [hinv.hledger]
      simp [appendLinesOf, List.filterMap_append, updateProgressEvents, List.append_assoc]
    · intro j
      dsimp only
      have h := hinv.hcount j
      have hsub : List.Sublist (s.pending ++ s.launched.erase i) (s.pending ++ s.launched) :=
        (List.erase_sublist i s.launched).append_left s.pending
      exact le_trans (hsub.count_le j) h
    · intro n
      dsimp only
      have h := hinv.hprog n
      unfold countProgress countAppend at h ⊢
      rw [List.countP_append, List.countP_append, h]
      simp [updateProgressEvents, List.countP_cons, isProgressFor, isAppendFor]
    · dsimp only
      exact hinv.hclosedInt
    · intro hc
      have h := hinv.hclosedInt hc
      rw [hI] at h
      exact Bool.noConfusion h
    · dsimp only
      exact hinv.hatInt
    · intro j hj
      dsimp only at hj
      rw [hinv.hatInt hI] at hj
      cases hj
  | completeErr i e hI hM hE =>
    refine ⟨?_, ?_, ?_, ?_, ?_, ?_, ?_, ?_⟩
    · dsimp only
      have h := hinv.hsem
      have hlen : (s.launched.erase i).length = s.launched.length - 1 :=
        List.length_erase_of_mem hM
      have hpos : 0 < s.launched.length := List.length_pos.mpr (List.ne_nil_of_mem hM)
      omega
    · dsimp only
      exact hinv.hledger
    · intro j
      dsimp only
      have h := hinv.hcount j
      have hsub : List.Sublist (s.pending ++ s.launched.erase i) (s.pending ++ s.launched) :=
        (List.erase_sublist i s.launched).append_left s.pending
      exact le_trans (hsub.count_le j) h
    · intro n
      dsimp only
      exact hinv.hprog n
    · dsimp only
      exact hinv.hclosedInt
    · intro hc
      have h := hinv.hclosedInt hc
      rw [hI] at h
      exact Bool.noConfusion h
    · dsimp only
      exact hinv.hatInt
    · intro j hj
      dsimp only at hj
      rw [hinv.hatInt hI] at hj
      cases hj
  | interrupt hI hC =>
    refine ⟨?_, ?_, ?_, ?_, ?_, ?_, ?_, ?_⟩
    · dsimp only
      exact hinv.hsem
    · dsimp only
      rw [hinv.hledger]
      simp [appendLinesOf, List.filterMap_append]
    · intro j
      dsimp only
      exact hinv.hcount j
    · intro n
      dsimp only
      have h := hinv.hprog n
      unfold countProgress countAppend at h ⊢
      rw [List.countP_append, List.countP_append, h]
      simp [List.countP_cons, isProgressFor, isAppendFor]
    · intro _
      rfl
    · intro hc
      exact absurd (hC.symm.trans hc) (by simp)
    · intro h
      exact absurd h (by simp)
    · intro j hj
      dsimp only at hj ⊢
      exact Or.inl hj
  | drain i rest hI hL =>
    refine ⟨?_, ?_, ?_, ?_, ?_, ?_, ?_, ?_⟩
    · dsimp only
      have h := hinv.hsem
      rw [hL] at h
      simp only [List.length_cons] at h
      omega
    · dsimp only
      rw [hinv.hledger]
      simp [appendLinesOf, List.filterMap_append]
    · intro j
      dsimp only
      have h := hinv.hcount j
      have hsub : List.Sublist (s.pending ++ rest) (s.pending ++ s.launched) := by
        rw [hL]
        exact (List.sublist_cons_self i rest).append_left s.pending
      exact le_trans (hsub.count_le j) h
    · intro n
      dsimp only
      have h := hinv.hprog n
      unfold countProgress countAppend at h ⊢
      rw [List.countP_append, List.countP_append, h]
      simp [List.countP_cons, isProgressFor, isAppendFor]
    · intro hc
      exact hI
    · intro hc
      have h := hinv.hclosedLaunched hc
      rw [hL] at h
      exact absurd h (List.cons_ne_nil i rest)
    · intro h
      rw [hI] at h
      exact Bool.noConfusion h
    · intro j hj
      dsimp only at hj ⊢
      rcases hinv.hdrain j hj with hmem | hdone
      · rw [hL] at hmem
        rcases List.mem_cons.mp hmem with rfl | hmem2
        · right
          constructor
          · exact List.mem_append_right _ (by simp)
          · exact List.mem_append_right _ (by simp)
        · exact Or.inl hmem2
      · exact Or.inr ⟨List.mem_append_left _ hdone.1, List.mem_append_left _ hdone.2⟩
  | close hI hL hC =>
    refine ⟨?_, ?_, ?_, ?_, ?_, ?_, ?_, ?_⟩
    · dsimp only
      exact hinv.hsem
    · dsimp only
      rw [hinv.hledger]
      simp [appendLinesOf, List.filterMap_append]
    · intro j
      dsimp only
      exact hinv.hcount j
    · intro n
      dsimp only
      have h := hinv.hprog n
      unfold countProgress countAppend at h ⊢
      rw [List.countP_append, List.countP_append, h]
      simp [List.countP_cons, isProgressFor, isAppendFor]
    · intro _
      exact hI
    · intro _
      exact hL
    · intro h
      rw [hI] at h
      exact Bool.noConfusion h
    · intro j hj
      dsimp only at hj ⊢
      rcases hinv.hdrain j hj with hmem | hdone
      · exact Or.inl hmem
      · exact Or.inr ⟨List.mem_append_left _ hdone.1, List.mem_append_left _ hdone.2⟩

theorem schedInv_reachable (units : List Issue) (W : Nat) (L0 : List (List Char))
    (exec : Issue → Except Nat ResolverOutput) (s : SchedState)
    (h : Relation.ReflTransGen (SchedStep exec) (initState units W L0) s) :
    SchedInv units W L0 s := by
  induction h with
  | refl => exact schedInv_init units W L0
  | tail hab hbc ih => exact schedInv_step units W L0 exec _ _ ih hbc

/-- After the interrupt flag is set, the scheduler can only drain and close:
the flag stays set, and the ledger, the pending list, the number of launch
events and the interrupt-time child registry are all frozen. -/
theorem interrupted_frozen (exec : Issue → Except Nat ResolverOutput) (s t : SchedState)
    (hst : Relation.ReflTransGen (SchedStep exec) s t) (hint : s.interrupted = true) :
    t.interrupted = true ∧ t.ledger = s.ledger ∧ t.pending = s.pending ∧
    countLaunch t.events = countLaunch s.events ∧ t.atInterrupt = s.atInterrupt := by
  induction hst with
  | refl => exact ⟨hint, rfl, rfl, rfl, rfl⟩
  | tail hab hbc ih =>
    rcases ih with ⟨h1, h2, h3, h4, h5⟩
    cases hbc with
    | launch i rest k hI hC hP hS =>
      rw [h1] at hI
      exact Bool.noConfusion hI
    | completeOk i r hI hM hE =>
      rw [h1] at hI
      exact Bool.noConfusion hI
    | completeErr i e hI hM hE =>
      rw [h1] at hI
      exact Bool.noConfusion hI
    | interrupt hI hC =>
      rw [h1] at hI
      exact Bool.noConfusion hI
    | drain i rest hI hL =>
      refine ⟨h1, h2, h3, ?_, h5⟩
      dsimp only
      rw [countLaunch, List.countP_append, ← h4]
      simp [countLaunch, List.countP_cons, isLaunchEv]
    | close hI hL hC =>
      refine ⟨h1, h2, h3, ?_, h5⟩
      dsimp only
      rw [countLaunch, List.countP_append, ← h4]
      simp [countLaunch, List.countP_cons, isLaunchEv]

/-- Once the ledger file is closed, no step is possible at all: in
particular nothing is ever written after the close. -/
theorem closed_stuck (units : List Issue) (W : Nat) (L0 : List (List Char))
    (exec : Issue → Except Nat ResolverOutput) (s : SchedState)
    (hreach : Relation.ReflTransGen (SchedStep exec) (initState units W L0) s)
    (hc : s.closed = true) : ∀ t, SchedStep exec s t → False := by
  intro t hstep
  have hinv := schedInv_reachable units W L0 exec s hreach
  cases hstep with
  | launch i rest k hI hC hP hS =>
    rw [hc] at hC
    exact Bool.noConfusion hC
  | completeOk i r hI hM hE =>
    have h := hinv.hclosedInt hc
    rw [hI] at h
    exact Bool.noConfusion h
  | completeErr i e hI hM hE =>
    have h := hinv.hclosedInt hc
    rw [hI] at h
    exact Bool.noConfusion h
  | interrupt hI hC =>
    rw [hc] at hC
    exact Bool.noConfusion hC
  | drain i rest hI hL =>
    have h := hinv.hclosedLaunched hc
    rw [hL] at h
    exact absurd h (List.cons_ne_nil i rest)
  | close hI hL hC =>
    rw [hc] at hC
    exact Bool.noConfusion hC

/-- Claim C5: in every state reachable from the initial state, the number of
unit executions in flight is at most the configured `num_workers`, for all
runs, unit lists, initial ledgers and executors. -/
theorem c5_bounded_concurrency (units : List Issue) (numWorkers : Nat)
    (ledger0 : List (List Char)) (exec : Issue → Except Nat ResolverOutput)
    (s : SchedState)
    (h : Relation.ReflTransGen (SchedStep exec) (initState units numWorkers ledger0) s) :
    s.launched.length ≤ numWorkers := by
  have hinv := schedInv_reachable units numWorkers ledger0 exec s h
  have hs := hinv.hsem
  omega

theorem c5_witness : stLaunchW.launched.length ≤ 1 :=
  c5_bounded_concurrency [issueW] 1 [] execErrW stLaunchW
    (Relation.ReflTransGen.tail Relation.ReflTransGen.refl
      (SchedStep.launch stInitW issueW [] 0 rfl rfl rfl rfl))

/-- Every step leaves the existing ledger contents alone: the ledger at any
later point of a run extends the ledger at any earlier point.  This is the
no-rollback property between two arbitrary points of the same run. -/
theorem ledger_monotone (exec : Issue → Except Nat ResolverOutput) (s1 s : SchedState)
    (h : Relation.ReflTransGen (SchedStep exec) s1 s) :
    ∃ t, s.ledger = s1.ledger ++ t := by
  induction h with
  | refl => exact ⟨[], (List.append_nil _).symm⟩
  | tail hab hbc ih =>
    rcases ih with ⟨t, ht⟩
    cases hbc with
    | launch i rest k hI hC hP hS => exact ⟨t, ht⟩
    | completeOk i r hI hM hE =>
      refine ⟨t ++ [serializeResolverOutput r], ?_⟩
      dsimp only
      rw [ht, List.append_assoc]
    | completeErr i e hI hM hE => exact ⟨t, ht⟩
    | interrupt hI hC => exact ⟨t, ht⟩
    | drain i rest hI hL => exact ⟨t, ht⟩
    | close hI hL hC => exact ⟨t, ht⟩

/-- Claim C7: if some unit's executor has raised, the gathered run outcome
surfaces exactly that failure (no retry, no silent drop); the final ledger is
exactly the initial file extended by the line of every append event emitted
during the run, so each sibling's appended entry is present and unmodified;
in particular, the ledger at any earlier point of the run — for instance just
after a sibling's append — is a prefix of the final ledger (nothing is rolled
back on error); and no unit occurs more often in pending-plus-in-flight than
it did initially. -/
theorem c7_error_surfaced (units : List Issue) (numWorkers : Nat)
    (ledger0 : List (List Char)) (exec : Issue → Except Nat ResolverOutput)
    (s1 s : SchedState) (e : Nat)
    (h1 : Relation.ReflTransGen (SchedStep exec) (initState units numWorkers ledger0) s1)
    (h12 : Relation.ReflTransGen (SchedStep exec) s1 s)
    (hf : s.failure = some e) :
    gatherOutcome s = Except.error e ∧
    s.ledger = ledger0 ++ appendLinesOf s.events ∧
    (∃ suffix, s.ledger = s1.ledger ++ suffix) ∧
    ∀ i, (s.pending ++ s.launched).count i ≤ units.count i := by
  have hinv := schedInv_reachable units numWorkers ledger0 exec s (h1.trans h12)
  refine ⟨?_, hinv.hledger, ledger_monotone exec s1 s h12, hinv.hcount⟩
  unfold gatherOutcome
  rw [hf]

theorem c7_witness :
    gatherOutcome stC7Fail = Except.error 9 ∧
    stC7Fail.ledger = [] ++ appendLinesOf stC7Fail.events ∧
    (∃ suffix, stC7Fail.ledger = stC7Done1.ledger ++ suffix) ∧
    ∀ i, (stC7Fail.pending ++ stC7Fail.launched).count i ≤
      ([issueW, issueW2] : List Issue).count i :=
  c7_error_surfaced [issueW, issueW2] 1 [] execMixedW stC7Done1 stC7Fail 9
    (Relation.ReflTransGen.tail
      (Relation.ReflTransGen.tail Relation.ReflTransGen.refl
        (SchedStep.launch stC7Init issueW [issueW2] 0 rfl rfl rfl rfl))
      (SchedStep.completeOk stC7Launch1 issueW resultW rfl (List.mem_singleton.mpr rfl) rfl))
    (Relation.ReflTransGen.tail
      (Relation.ReflTransGen.tail Relation.ReflTransGen.refl
        (SchedStep.launch stC7Done1 issueW2 [] 0 rfl rfl rfl rfl))
      (SchedStep.completeErr stC7Launch2 issueW2 9 rfl (List.mem_singleton.mpr rfl) rfl))
    rfl

/-- Claim C2, amended: within `update_progress` the progress report is
emitted first and the ledger append second, but the two occur in one
synchronous block with no suspension point between them, so at every
scheduler-observable point the number of progress reports emitted for a unit
equals the number of its ledger appends, and the ledger holds exactly the
lines of the append events. -/
theorem c2_progress_append_atomic (units : List Issue) (numWorkers : Nat)
    (ledger0 : List (List Char)) (exec : Issue → Except Nat ResolverOutput)
    (s : SchedState)
    (h : Relation.ReflTransGen (SchedStep exec) (initState units numWorkers ledger0) s) :
    (∀ n, countProgress n s.events = countAppend n s.events) ∧
    s.ledger = ledger0 ++ appendLinesOf s.events := by
  have hinv := schedInv_reachable units numWorkers ledger0 exec s h
  exact ⟨hinv.hprog, hinv.hledger⟩

theorem c2_witness :
    (∀ n, countProgress n stDoneW.events = countAppend n stDoneW.events) ∧
    stDoneW.ledger = [] ++ appendLinesOf stDoneW.events :=
  c2_progress_append_atomic [issueW] 1 [] execOkW stDoneW
    (Relation.ReflTransGen.tail
      (Relation.ReflTransGen.tail Relation.ReflTransGen.refl
        (SchedStep.launch stInitW issueW [] 0 rfl rfl rfl rfl))
      (SchedStep.completeOk stLaunchW issueW resultW rfl (List.mem_singleton.mpr rfl) rfl))

/-- Claim C2 counterexample: at instruction granularity the claimed order is
reversed.  The first effect `update_progress` emits after awaiting the result
is the progress report (`pbar.update`, line 39), and at that point — the
length-1 trace of its effects — a progress report exists for the unit while
its ledger append has not yet happened (the write is line 47). -/
theorem c2_progress_before_append_cex :
    (updateProgressEvents resultC2).take 1 = [Event.progressEv 5] ∧
    countProgress 5 ((updateProgressEvents resultC2).take 1) = 1 ∧
    countAppend 5 ((updateProgressEvents resultC2).take 1) = 0 :=
  ⟨rfl, rfl, rfl⟩

/-- Claim C8: from any state where the interrupt has been received, once a
state with a closed ledger file is reached: every child that was in flight
at the interrupt has been sent a terminate request and joined, no new unit
was launched after the interrupt (the pending list and the launch-event
count are frozen), no ledger write happened after the interrupt, and the
closed state permits no further step at all — in particular no ledger write
after the close. -/
theorem c8_interrupt_drain_close (units : List Issue) (numWorkers : Nat)
    (ledger0 : List (List Char)) (exec : Issue → Except Nat ResolverOutput)
    (s t : SchedState)
    (hs : Relation.ReflTransGen (SchedStep exec) (initState units numWorkers ledger0) s)
    (hint : s.interrupted = true)
    (hst : Relation.ReflTransGen (SchedStep exec) s t)
    (hclosed : t.closed = true) :
    (∀ i ∈ t.atInterrupt, Event.terminateEv i.number ∈ t.events ∧
      Event.joinEv i.number ∈ t.events) ∧
    t.pending = s.pending ∧ countLaunch t.events = countLaunch s.events ∧
    t.ledger = s.ledger ∧
    ∀ u, SchedStep exec t u → False := by
  have hreach : Relation.ReflTransGen (SchedStep exec) (initState units numWorkers ledger0) t :=
    hs.trans hst
  have hinv := schedInv_reachable units numWorkers ledger0 exec t hreach
  rcases interrupted_frozen exec s t hst hint with ⟨h1, h2, h3, h4, h5⟩
  refine ⟨?_, h3, h4, h2, closed_stuck units numWorkers ledger0 exec t hreach hclosed⟩
  intro i hi
  rcases hinv.hdrain i hi with hmem | hdone
  · rw [hinv.hclosedLaunched hclosed] at hmem
    cases hmem
  · exact hdone

theorem c8_witness :
    (∀ i ∈ stClosedW.atInterrupt, Event.terminateEv i.number ∈ stClosedW.events ∧
      Event.joinEv i.number ∈ stClosedW.events) ∧
    stClosedW.pending = stIntW.pending ∧
    countLaunch stClosedW.events = countLaunch stIntW.events ∧
    stClosedW.ledger = stIntW.ledger ∧
    ∀ u, SchedStep execErrW stClosedW u → False :=
  c8_interrupt_drain_close [issueW] 1 [] execErrW stIntW stClosedW
    (Relation.ReflTransGen.tail
      (Relation.ReflTransGen.tail Relation.ReflTransGen.refl
        (SchedStep.launch stInitW issueW [] 0 rfl rfl rfl rfl))
      (SchedStep.interrupt stLaunchW rfl rfl))
    rfl
    (Relation.ReflTransGen.tail
      (Relation.ReflTransGen.tail Relation.ReflTransGen.refl
        (SchedStep.drain stIntW issueW [] rfl rfl))
      (SchedStep.close stDrainW rfl rfl rfl))
    rfl
